import Mathlib

/-!
Verification of the object-detection training-pipeline core declared in
src/toolkits/object_detection/od_model.hpp (turicreate).

The header declares the batch value types, Config, Checkpoint, the
DataIterator and DataAugmenter adapters, the ProgressUpdater transform and
the abstract Model.  The corresponding od_model.cpp bodies are not part of
the analyzed sources, so the operation bodies below marked
`Modelled from the spec:` are faithful renderings of the specification
text; the struct shapes, field defaults and the DataIterator constructor
and HasNext come directly from the header.

Machine floats are modelled by exact rationals, C++ int by Int.
-/

namespace OD

/-- Opaque stand-in for the content of one neural_net image annotation
record; the pipeline core only moves annotation values around and never
inspects them. -/
abbrev image_annot := Nat

/-- Embeds neural_net::labeled_image: one raw image together with its
annotation list. Image content is opaque to the pipeline core. -/
structure labeled_image where
  image : Nat
  annots : List image_annot
deriving DecidableEq

/-- Embeds neural_net::shared_float_array as the sequence of scalar values
it holds, with exact rationals standing in for machine floats. -/
abbrev shared_float_array := List ℚ

/-- Embeds neural_net::float_array_map: a mapping from weight-tensor name
to tensor. -/
abbrev float_array_map := List (String × shared_float_array)

/-- Embeds struct DataBatch (od_model.hpp, lines 26-31): one batch of raw,
possibly annotated images; iteration_id defaults to 0 as in the source. -/
structure DataBatch where
  iteration_id : Int := 0
  examples : List labeled_image
deriving DecidableEq

/-- Embeds struct InputBatch (od_model.hpp, lines 34-43): one batch of
model-agnostic data, post-augmentation/resizing. -/
structure InputBatch where
  iteration_id : Int := 0
  images : shared_float_array
  annotations : List (List image_annot)
deriving DecidableEq

/-- Embeds struct EncodedInputBatch (od_model.hpp, lines 46-54): one batch
in a possibly model-specific format; the raw annotations are preserved to
support evaluation. -/
structure EncodedInputBatch where
  iteration_id : Int := 0
  images : shared_float_array
  labels : shared_float_array
  annotations : List (List image_annot)
deriving DecidableEq

/-- Embeds struct TrainingOutputBatch (od_model.hpp, lines 57-60): the raw
output of an object-detection model. -/
structure TrainingOutputBatch where
  iteration_id : Int := 0
  loss : shared_float_array
deriving DecidableEq

/-- Embeds struct TrainingProgress (od_model.hpp, lines 63-66): the output
conveyed to the user. -/
structure TrainingProgress where
  iteration_id : Int := 0
  smoothed_loss : ℚ := 0
deriving DecidableEq

/-- Embeds struct Config (od_model.hpp, lines 69-92) with its default
member initializers taken verbatim from the source. -/
structure Config where
  max_iterations : Int := -1
  batch_size : Int := -1
  output_height : Int := 13
  output_width : Int := 13
  num_classes : Int := -1
deriving DecidableEq

/-- A default-constructed Config: every field takes its default member
initializer from the source. -/
def Config.defaultConfig : Config := {}

/-- Modelled from the spec: the configuration-inconsistency condition of
the error-handling design (num_classes unset at training start, the -1
default being the unset sentinel); the predicate itself is not in
od_model.hpp. -/
def Config.inconsistent_at_training_start (c : Config) : Bool :=
  c.num_classes == -1

/-- Embeds struct Checkpoint (od_model.hpp, lines 99-102): all the
parameters needed to reconstruct a model (optimizer state excluded, as the
source to-do notes). -/
structure Checkpoint where
  config : Config
  weights : float_array_map
deriving DecidableEq

/-- Modelled from the spec: the external raw-batch source
(object_detection::data_iterator, declared in od_data_iterator.hpp, not
under the analyzed sources).  It exposes has-more and next-batch
operations; its remaining output is represented as the list of image
groups it will yield, each group being one raw batch of up to batch_size
images chosen by the external producer. -/
structure data_iterator where
  batches : List (List labeled_image)
deriving DecidableEq

/-- The external producer has more batches exactly when some raw batch
remains. -/
def data_iterator.has_next_batch (d : data_iterator) : Bool :=
  !d.batches.isEmpty

/-- Modelled from the spec: producing the next raw batch from the external
source; none signals that no batch remains. -/
def data_iterator.next_batch (d : data_iterator) :
    Option (List labeled_image × data_iterator) :=
  match d.batches with
  | [] => none
  | b :: rest => some (b, ⟨rest⟩)

/-- Embeds class DataIterator (od_model.hpp, lines 107-132): wrapper
adapting object_detection::data_iterator to the Iterator interface, with
the wrapped impl, the batch size and the last_iteration_id counter. -/
structure DataIterator where
  impl : data_iterator
  batch_size : Nat
  last_iteration_id : Int
deriving DecidableEq

/-- Embeds the DataIterator constructor (od_model.hpp, lines 118-122): the
internal counter last_iteration_id is initialized to the offset, so the
first batch produced will have an iteration_id one more than the offset. -/
def DataIterator.init (impl : data_iterator) (batch_size : Nat)
    (offset : Int) : DataIterator :=
  { impl := impl, batch_size := batch_size, last_iteration_id := offset }

/-- Embeds DataIterator::HasNext (od_model.hpp, line 124): delegates to the
wrapped impl. -/
def DataIterator.HasNext (it : DataIterator) : Bool :=
  it.impl.has_next_batch

/-- Modelled from the spec: DataIterator::Next (declared at od_model.hpp
line 126; the body in od_model.cpp is not under the analyzed sources).
Next fails — a terminal, non-recoverable call-contract violation, rendered
as none — when HasNext is false; otherwise it increments the internal
counter first, then stamps the produced DataBatch with the new counter
value. -/
def DataIterator.Next (it : DataIterator) :
    Option (DataBatch × DataIterator) :=
  match it.impl.next_batch with
  | none => none
  | some (ex, impl2) =>
      some ({ iteration_id := it.last_iteration_id + 1, examples := ex },
            { it with impl := impl2,
                      last_iteration_id := it.last_iteration_id + 1 })

/-- All batches a DataIterator will emit, by repeated calls to Next; the
fuel argument bounds the number of calls and is instantiated with the
number of remaining raw batches. -/
def DataIterator.drain : DataIterator → Nat → List DataBatch
  | _, 0 => []
  | it, fuel + 1 =>
      match it.Next with
      | none => []
      | some p => p.1 :: p.2.drain fuel

/-- Modelled from the spec: the external augmentation engine
(neural_net::image_augmenter, not under the analyzed sources): augment one
batch, returning a packed image tensor plus per-image annotation lists. -/
structure image_augmenter where
  prepare_images :
    List labeled_image → shared_float_array × List (List image_annot)

/-- Embeds class DataAugmenter (od_model.hpp, lines 135-144): wrapper
adapting image_augmenter to the Transform interface; its only state is the
wrapped engine. -/
structure DataAugmenter where
  impl : image_augmenter

/-- Modelled from the spec: DataAugmenter::Invoke (declared at od_model.hpp
line 140; the body is not under the analyzed sources).  A pure per-batch
transform delegating to the external augmentation engine; the iteration_id
is copied unchanged, and the augmenter state is returned untouched to make
the absence of side effects on pipeline state explicit. -/
def DataAugmenter.Invoke (aug : DataAugmenter) (b : DataBatch) :
    InputBatch × DataAugmenter :=
  let r := aug.impl.prepare_images b.examples
  ({ iteration_id := b.iteration_id, images := r.1, annotations := r.2 },
   aug)

/-- The mean of a loss tensor. -/
def mean_loss (loss : shared_float_array) : ℚ :=
  loss.sum / loss.length

/-- Embeds class ProgressUpdater (od_model.hpp, lines 153-163): its only
state is the running smoothed-loss value, held through a pointer that is
null before the first batch (rendered as none). -/
structure ProgressUpdater where
  smoothed_loss : Option ℚ
deriving DecidableEq

/-- Modelled from the spec: ProgressUpdater::Invoke (declared at
od_model.hpp line 159; the body is not under the analyzed sources).  On
the first batch the smoothed loss is initialized directly from the mean
loss of that batch; on every subsequent batch the update rule is
a * mean + (1 - a) * previous for the fixed smoothing factor a chosen by
configuration.  The iteration_id is copied unchanged. -/
def ProgressUpdater.Invoke (a : ℚ) (u : ProgressUpdater)
    (b : TrainingOutputBatch) : TrainingProgress × ProgressUpdater :=
  let m := mean_loss b.loss
  match u.smoothed_loss with
  | none =>
      ({ iteration_id := b.iteration_id, smoothed_loss := m }, ⟨some m⟩)
  | some prev =>
      let s := a * m + (1 - a) * prev
      ({ iteration_id := b.iteration_id, smoothed_loss := s }, ⟨some s⟩)

/-- One run of the ProgressUpdater over an ordered sequence of
training-output batches, threading its state. -/
def ProgressUpdater.run (a : ℚ) :
    ProgressUpdater → List TrainingOutputBatch → List TrainingProgress
  | _, [] => []
  | u, b :: rest =>
      let r := u.Invoke a b
      r.1 :: ProgressUpdater.run a r.2 rest

/-- A possible observed execution of the ProgressUpdater: relates a start
state and an ordered input sequence to an emitted output sequence.  Used
to state that the transform is deterministic under replay. -/
inductive ProgressTrace (a : ℚ) :
    ProgressUpdater → List TrainingOutputBatch → List TrainingProgress →
    Prop
  | nil (u : ProgressUpdater) : ProgressTrace a u [] []
  | cons (u : ProgressUpdater) (b : TrainingOutputBatch)
      (rest : List TrainingOutputBatch) (outs : List TrainingProgress) :
      ProgressTrace a (u.Invoke a b).2 rest outs →
      ProgressTrace a u (b :: rest) ((u.Invoke a b).1 :: outs)

/-- Modelled from the spec: the training/inference engine behind a
concrete Model subclass (not under the analyzed sources): encode one batch
into the model-specific label tensor, and run one training step returning
a raw loss tensor while updating the model-owned training state. -/
structure model_backend (σ : Type) where
  encode_labels : InputBatch → shared_float_array
  train_step : σ → EncodedInputBatch → σ × shared_float_array

/-- Modelled from the spec: the model-specific encode stage of the
subclass contract — each InputBatch is encoded into the native
EncodedInputBatch representation, with the iteration_id preserved and the
raw annotations retained for evaluation. -/
def encode_stage {σ : Type} (be : model_backend σ) (ib : InputBatch) :
    EncodedInputBatch :=
  { iteration_id := ib.iteration_id, images := ib.images,
    labels := be.encode_labels ib, annotations := ib.annotations }

/-- Modelled from the spec: the model-specific train stage of the subclass
contract — one training step per encoded batch, emitting a
TrainingOutputBatch that preserves the iteration_id. -/
def train_stage {σ : Type} (be : model_backend σ) (st : σ)
    (eb : EncodedInputBatch) : σ × TrainingOutputBatch :=
  let r := be.train_step st eb
  (r.1, { iteration_id := eb.iteration_id, loss := r.2 })

/-- Modelled from the spec: the body of the default
Model::AsTrainingBatchPublisher pipeline (declared at od_model.hpp lines
183-185; the body is not under the analyzed sources): repeatedly pull one
DataBatch from the DataIterator, augment it, encode it and run one
training step, emitting the outputs in order until the source is
exhausted.  The fuel argument bounds the number of iterator calls and is
instantiated with the number of remaining raw batches. -/
def run_from_iterator {σ : Type} (be : model_backend σ)
    (aug : DataAugmenter) :
    σ → DataIterator → Nat → List TrainingOutputBatch
  | _, _, 0 => []
  | st, it, fuel + 1 =>
      match it.Next with
      | none => []
      | some p =>
          let ib := (aug.Invoke p.1).1
          let eb := encode_stage be ib
          let r := train_stage be st eb
          r.2 :: run_from_iterator be aug r.1 p.2 fuel

/-- Modelled from the spec: Model::AsTrainingBatchPublisher (od_model.hpp
lines 183-185): constructs a DataIterator over the source with the given
batch_size and offset, wraps it with the owned DataAugmenter, and pipes
the result into the model-specific encode/train stage, yielding the full
stream of TrainingOutputBatch values. -/
def AsTrainingBatchPublisher {σ : Type} (be : model_backend σ)
    (aug : DataAugmenter) (st : σ) (training_data : data_iterator)
    (batch_size : Nat) (offset : Int) : List TrainingOutputBatch :=
  let it := DataIterator.init training_data batch_size offset
  run_from_iterator be aug st it it.impl.batches.length

/-- Modelled from the spec: the training state a concrete Model holds for
checkpoint production — the Config used to construct the pipeline and the
current weights. -/
structure model_state where
  config : Config
  weights : float_array_map
deriving DecidableEq

/-- Modelled from the spec: one training step as seen by the checkpoint
contract: it may update the weights arbitrarily but never the Config the
pipeline was constructed with. -/
def apply_train_step (upd : float_array_map → float_array_map)
    (m : model_state) : model_state :=
  { m with weights := upd m.weights }

/-- Modelled from the spec: Model::AsCheckpointPublisher (od_model.hpp
lines 188-189; pure virtual, implemented by subclasses): producing a
Checkpoint yields the construction Config plus the complete mapping of the
current weight tensors. -/
def AsCheckpointPublisher (m : model_state) : Checkpoint :=
  { config := m.config, weights := m.weights }

/-- Helper: the iteration ids stamped by draining a DataIterator whose
counter stands at k over its remaining raw batches are k+1, k+2, and so
on, in order. -/
theorem drain_map_iteration_id (bs : List (List labeled_image)) :
    ∀ (bsz : Nat) (k : Int) (fuel : Nat), bs.length ≤ fuel →
      (DataIterator.drain ⟨⟨bs⟩, bsz, k⟩ fuel).map DataBatch.iteration_id
        = (List.range bs.length).map (fun (i : Nat) => k + (i : Int) + 1) := by
  induction bs with
  | nil =>
      intro bsz k fuel h
      cases fuel with
      | zero => simp [DataIterator.drain]
      | succ f =>
          simp [DataIterator.drain, DataIterator.Next,
            data_iterator.next_batch]
  | cons ex rest ih =>
      intro bsz k fuel h
      cases fuel with
      | zero => simp at h
      | succ f =>
          have hr : rest.length ≤ f := by simpa using h
          simp only [DataIterator.drain, DataIterator.Next,
            data_iterator.next_batch, List.map_cons, List.length_cons]
          rw [ih bsz (k + 1) f hr, List.range_succ_eq_map, List.map_cons,
            List.map_map]
          refine congrArg₂ List.cons (by push_cast; ring) ?_
          refine List.map_congr_left ?_
          intro i _
          simp only [Function.comp_apply]
          push_cast
          ring

/-- Helper: the iteration ids carried by the outputs of the training
pipeline over the remaining raw batches, starting from counter value k,
are k+1, k+2, and so on, in order. -/
theorem run_from_iterator_map_iteration_id {σ : Type}
    (be : model_backend σ) (aug : DataAugmenter)
    (bs : List (List labeled_image)) :
    ∀ (st : σ) (bsz : Nat) (k : Int) (fuel : Nat), bs.length ≤ fuel →
      (run_from_iterator be aug st ⟨⟨bs⟩, bsz, k⟩ fuel).map
          TrainingOutputBatch.iteration_id
        = (List.range bs.length).map (fun (i : Nat) => k + (i : Int) + 1) := by
  induction bs with
  | nil =>
      intro st bsz k fuel h
      cases fuel with
      | zero => simp [run_from_iterator]
      | succ f =>
          simp [run_from_iterator, DataIterator.Next,
            data_iterator.next_batch]
  | cons ex rest ih =>
      intro st bsz k fuel h
      cases fuel with
      | zero => simp at h
      | succ f =>
          have hr : rest.length ≤ f := by simpa using h
          simp only [run_from_iterator, DataIterator.Next,
            data_iterator.next_batch, train_stage, encode_stage,
            DataAugmenter.Invoke, List.map_cons, List.length_cons]
          rw [ih _ bsz (k + 1) f hr, List.range_succ_eq_map, List.map_cons,
            List.map_map]
          refine congrArg₂ List.cons (by push_cast; ring) ?_
          refine List.map_congr_left ?_
          intro i _
          simp only [Function.comp_apply]
          push_cast
          ring

/-- C1: for every finite source of N raw batches fed through the full
training pipeline built by Model::AsTrainingBatchPublisher with offset 0,
the emitted TrainingOutputBatch stream has exactly N elements, one per
input DataBatch in input order, carrying iteration_id 1..N; the stream is
the finite list ending when the source is exhausted. -/
theorem pipeline_emits_one_output_per_input_in_order {σ : Type}
    (be : model_backend σ) (aug : DataAugmenter) (st : σ)
    (source : data_iterator) (bsz : Nat) :
    (AsTrainingBatchPublisher be aug st source bsz 0).length
        = source.batches.length ∧
    (AsTrainingBatchPublisher be aug st source bsz 0).map
        TrainingOutputBatch.iteration_id
      = (List.range source.batches.length).map (fun (i : Nat) => (i : Int) + 1) := by
  have h := run_from_iterator_map_iteration_id be aug source.batches st bsz
    0 source.batches.length le_rfl
  constructor
  · have hlen := congrArg List.length h
    simpa [AsTrainingBatchPublisher, DataIterator.init] using hlen
  · simpa [AsTrainingBatchPublisher, DataIterator.init] using h

/-- C2: a DataIterator constructed with offset k starts its internal
counter at k; every successful Next call stamps the emitted batch with the
incremented counter and stores that value back, so the n-th emitted batch
carries iteration_id k+n. -/
theorem dataIterator_offset_iteration_ids (d : data_iterator) (bsz : Nat)
    (k : Int) (hk : 0 ≤ k) (it : DataIterator)
    (p : DataBatch × DataIterator) (hnext : it.Next = some p) :
    (DataIterator.init d bsz k).last_iteration_id = k ∧
    p.1.iteration_id = it.last_iteration_id + 1 ∧
    p.2.last_iteration_id = it.last_iteration_id + 1 ∧
    ((DataIterator.init d bsz k).drain d.batches.length).map
        DataBatch.iteration_id
      = (List.range d.batches.length).map (fun (i : Nat) => k + (i : Int) + 1) := by
  obtain ⟨b, it2⟩ := p
  refine ⟨rfl, ?_, ?_, ?_⟩
  · unfold DataIterator.Next data_iterator.next_batch at hnext
    cases hb : it.impl.batches with
    | nil => rw [hb] at hnext; simp at hnext
    | cons x xs =>
        rw [hb] at hnext
        simp only [Option.some.injEq, Prod.mk.injEq] at hnext
        rw [← hnext.1]
  · unfold DataIterator.Next data_iterator.next_batch at hnext
    cases hb : it.impl.batches with
    | nil => rw [hb] at hnext; simp at hnext
    | cons x xs =>
        rw [hb] at hnext
        simp only [Option.some.injEq, Prod.mk.injEq] at hnext
        rw [← hnext.2]
  · exact drain_map_iteration_id d.batches bsz k d.batches.length le_rfl

/-- Witness for C2 at offset 2 with a single raw batch. -/
theorem dataIterator_offset_iteration_ids_witness :
    (0 : Int) ≤ 2 ∧
    (DataIterator.init ⟨[[]]⟩ 4 2).Next
        = some ({ iteration_id := 3, examples := [] }, ⟨⟨[]⟩, 4, 3⟩) ∧
    ((DataIterator.init ⟨[[]]⟩ 4 2).last_iteration_id = 2 ∧
      ({ iteration_id := 3, examples := [] } : DataBatch).iteration_id
          = (DataIterator.init ⟨[[]]⟩ 4 2).last_iteration_id + 1 ∧
      (⟨⟨[]⟩, 4, 3⟩ : DataIterator).last_iteration_id
          = (DataIterator.init ⟨[[]]⟩ 4 2).last_iteration_id + 1 ∧
      ((DataIterator.init ⟨[[]]⟩ 4 2).drain 1).map DataBatch.iteration_id
          = (List.range 1).map (fun (i : Nat) => (2 : Int) + (i : Int) + 1)) :=
  ⟨by decide, by decide,
    dataIterator_offset_iteration_ids ⟨[[]]⟩ 4 2 (by decide)
      (DataIterator.init ⟨[[]]⟩ 4 2)
      ({ iteration_id := 3, examples := [] }, ⟨⟨[]⟩, 4, 3⟩) (by decide)⟩

/-- C3: calling Next on a DataIterator whose HasNext is false fails
deterministically, yielding the terminal failure value rather than any
DataBatch. -/
theorem next_fails_when_exhausted (it : DataIterator)
    (h : it.HasNext = false) : it.Next = none := by
  cases hb : it.impl.batches with
  | cons x xs =>
      exfalso
      unfold DataIterator.HasNext data_iterator.has_next_batch at h
      rw [hb] at h
      simp at h
  | nil =>
      unfold DataIterator.Next data_iterator.next_batch
      rw [hb]

/-- Witness for C3 on an exhausted source. -/
theorem next_fails_when_exhausted_witness :
    (DataIterator.init ⟨[]⟩ 4 0).HasNext = false ∧
    (DataIterator.init ⟨[]⟩ 4 0).Next = none :=
  ⟨by decide,
    next_fails_when_exhausted (DataIterator.init ⟨[]⟩ 4 0) (by decide)⟩

/-- C4: DataAugmenter::Invoke copies the iteration_id of its input batch
unchanged into the produced InputBatch, and leaves the augmenter state —
the only pipeline state this stage can touch — exactly as it was. -/
theorem augmenter_invoke_copies_id_and_is_pure (aug : DataAugmenter)
    (b : DataBatch) :
    (aug.Invoke b).1.iteration_id = b.iteration_id ∧
    (aug.Invoke b).2 = aug :=
  ⟨rfl, rfl⟩

/-- C5: on its first invocation (no prior smoothed-loss state), the
ProgressUpdater emits exactly the mean loss of that first batch, with no
smoothing applied, for every possible first batch. -/
theorem progress_first_output_equals_mean_loss (a : ℚ)
    (b : TrainingOutputBatch) :
    (ProgressUpdater.Invoke a ⟨none⟩ b).1.smoothed_loss = mean_loss b.loss ∧
    (ProgressUpdater.Invoke a ⟨none⟩ b).1.iteration_id = b.iteration_id :=
  ⟨rfl, rfl⟩

/-- C6: on every batch after the first (prior smoothed-loss state
present), ProgressUpdater::Invoke updates its state by
s = a * mean(loss) + (1 - a) * previous, emits that smoothed value, and
copies the iteration_id of the batch unchanged. -/
theorem progress_subsequent_update_rule (a prev : ℚ)
    (b : TrainingOutputBatch) :
    (ProgressUpdater.Invoke a ⟨some prev⟩ b).1.smoothed_loss
        = a * mean_loss b.loss + (1 - a) * prev ∧
    (ProgressUpdater.Invoke a ⟨some prev⟩ b).2
        = ⟨some (a * mean_loss b.loss + (1 - a) * prev)⟩ ∧
    (ProgressUpdater.Invoke a ⟨some prev⟩ b).1.iteration_id
        = b.iteration_id :=
  ⟨rfl, rfl, rfl⟩

/-- C7: the ProgressUpdater is deterministic under replay: any two
observed executions from the same initial state over the same ordered
input sequence produce identical output sequences. -/
theorem progress_replay_deterministic (a : ℚ) (u : ProgressUpdater)
    (bs : List TrainingOutputBatch) (o1 o2 : List TrainingProgress)
    (h1 : ProgressTrace a u bs o1) (h2 : ProgressTrace a u bs o2) :
    o1 = o2 := by
  induction h1 generalizing o2 with
  | nil u => cases h2; rfl
  | cons u b rest outs ht ih =>
      cases h2 with
      | cons _ _ _ outs2 ht2 => rw [ih outs2 ht2]

/-- Witness for C7 on a concrete one-batch replay. -/
theorem progress_replay_deterministic_witness :
    ProgressTrace (1 / 2) ⟨none⟩ [{ iteration_id := 1, loss := [2, 4] }]
        [(ProgressUpdater.Invoke (1 / 2) ⟨none⟩
            { iteration_id := 1, loss := [2, 4] }).1] ∧
    [(ProgressUpdater.Invoke (1 / 2) ⟨none⟩
        { iteration_id := 1, loss := [2, 4] }).1]
      = [{ iteration_id := 1, smoothed_loss := 3 }] := by
  have t1 : ProgressTrace (1 / 2) ⟨none⟩
      [{ iteration_id := 1, loss := [2, 4] }]
      [(ProgressUpdater.Invoke (1 / 2) ⟨none⟩
          { iteration_id := 1, loss := [2, 4] }).1] :=
    ProgressTrace.cons _ _ _ _ (ProgressTrace.nil _)
  have he : [(ProgressUpdater.Invoke (1 / 2) ⟨none⟩
        { iteration_id := 1, loss := [2, 4] }).1]
      = [({ iteration_id := 1, smoothed_loss := 3 } : TrainingProgress)] := by
    norm_num [ProgressUpdater.Invoke, mean_loss, List.sum_cons, List.sum_nil]
  have t2 : ProgressTrace (1 / 2) ⟨none⟩
      [{ iteration_id := 1, loss := [2, 4] }]
      [({ iteration_id := 1, smoothed_loss := 3 } : TrainingProgress)] :=
    he ▸ t1
  exact ⟨t1, progress_replay_deterministic (1 / 2) ⟨none⟩ _ _ _ t1 t2⟩

/-- C8: after any number of training steps from any initial state, the
Checkpoint produced contains a Config identical to the construction
Config, and its weight mapping is exactly the complete current weight
mapping of the model. -/
theorem checkpoint_contains_config_and_weights (m0 : model_state)
    (steps : List (float_array_map → float_array_map)) :
    (AsCheckpointPublisher
        (steps.foldl (fun m u => apply_train_step u m) m0)).config
        = m0.config ∧
    (AsCheckpointPublisher
        (steps.foldl (fun m u => apply_train_step u m) m0)).weights
        = (steps.foldl (fun m u => apply_train_step u m) m0).weights := by
  refine ⟨?_, rfl⟩
  induction steps generalizing m0 with
  | nil => rfl
  | cons u us ih =>
      rw [List.foldl_cons]
      exact ih (apply_train_step u m0)

/-- C9: the model-specific encode stage carries the per-image annotation
lists of its InputBatch into the EncodedInputBatch unchanged; they are
retained there for evaluation. -/
theorem encode_preserves_annotations {σ : Type} (be : model_backend σ)
    (ib : InputBatch) :
    (encode_stage be ib).annotations = ib.annotations :=
  rfl

/-- C10: a default-constructed Config has max_iterations = -1,
batch_size = -1, output_height = 13, output_width = 13 and
num_classes = -1, so an unmodified default Config is exactly the
configuration-inconsistency case at training start. -/
theorem config_default_values :
    Config.defaultConfig.max_iterations = -1 ∧
    Config.defaultConfig.batch_size = -1 ∧
    Config.defaultConfig.output_height = 13 ∧
    Config.defaultConfig.output_width = 13 ∧
    Config.defaultConfig.num_classes = -1 ∧
    Config.inconsistent_at_training_start Config.defaultConfig = true := by
  decide

end OD
